import Mathlib

/-!
Verification of the streaming chat bridge in this repository:
the server route (POST in src/app/api/chat/route.ts) and the client page
(handleSubmit / handleStop).  Text is modelled at the character level:
TextDecoder with the stream option reassembles UTF-8 sequences that are split
across byte chunks, so a decoded chunk is faithfully a list of characters.
JSON.parse and JSON.stringify are modelled by executable functions below;
JSON numbers are kept as their source lexeme (no claim depends on IEEE
number formatting), and lone UTF-16 surrogates, which Lean characters cannot
represent, are mapped to the replacement character (no claim touches them).
-/

abbrev Chars := List Char

/-- JSON whitespace accepted by JSON.parse around tokens. -/
def isJsonWs (c : Char) : Bool :=
  c == ' ' || c == '\t' || c == '\n' || c == '\r'

/-- Whitespace removed by the JavaScript trim method (ASCII classes plus
no-break space; other Unicode space classes never occur on this wire). -/
def isTrimWs (c : Char) : Bool :=
  c == ' ' || c == '\t' || c == '\n' || c == '\r' || c == '\x0b' ||
  c == '\x0c' || c == '\xa0'

def skipWs (l : Chars) : Chars := l.dropWhile (fun c => isJsonWs c)

/-- The JavaScript trim method: strip whitespace at both ends. -/
def trim (l : Chars) : Chars :=
  ((l.dropWhile (fun c => isTrimWs c)).reverse.dropWhile
    (fun c => isTrimWs c)).reverse

/-- Split on the newline character keeping every (possibly empty) segment:
the behaviour of the JavaScript split method with a one-character separator. -/
def splitOnNl : Chars → List Chars
  | [] => [[]]
  | c :: rest =>
    if c = '\n' then [] :: splitOnNl rest
    else
      match splitOnNl rest with
      | [] => [[c]]
      | seg :: segs => (c :: seg) :: segs

/-- JSON values as produced by JSON.parse.  Numbers keep their lexeme. -/
inductive Json where
  | null
  | bool (b : Bool)
  | num (lexeme : Chars)
  | str (s : Chars)
  | arr (elems : List Json)
  | obj (fields : List (Chars × Json))

def hexVal (c : Char) : Option Nat :=
  if '0' ≤ c ∧ c ≤ '9' then some (c.toNat - 48)
  else if 'a' ≤ c ∧ c ≤ 'f' then some (c.toNat - 87)
  else if 'A' ≤ c ∧ c ≤ 'F' then some (c.toNat - 55)
  else none

/-- Scalar for a single \uXXXX escape; a lone surrogate (legal in a JavaScript
string, unrepresentable in a Lean character) becomes the replacement char. -/
def charOfScalar (n : Nat) : Char :=
  if 0xd800 ≤ n ∧ n ≤ 0xdfff then '�' else Char.ofNat n

def surrogatePairChar (n m : Nat) : Char :=
  Char.ofNat (0x10000 + (n - 0xd800) * 0x400 + (m - 0xdc00))

def simpleEsc (c : Char) : Option Char :=
  if c = '"' then some '"'
  else if c = '\\' then some '\\'
  else if c = '/' then some '/'
  else if c = 'b' then some '\x08'
  else if c = 'f' then some '\x0c'
  else if c = 'n' then some '\n'
  else if c = 'r' then some '\r'
  else if c = 't' then some '\t'
  else none

/-- Body of a JSON string literal, after the opening quote: returns the
decoded characters and the input remaining after the closing quote.  The
fuel only serves the termination checker: every recursive call consumes at
least one input character (and emits exactly one decoded character), so a
seed of input length plus one never runs out. -/
def parseStringBodyF : Nat → Chars → Option (Chars × Chars)
  | 0, _ => none
  | _+1, [] => none
  | f+1, c :: rest =>
    if c = '"' then some ([], rest)
    else if c = '\\' then
      match rest with
      | [] => none
      | e :: rest2 =>
        if e = 'u' then
          match rest2 with
          | h1 :: h2 :: h3 :: h4 :: rest3 =>
            match hexVal h1, hexVal h2, hexVal h3, hexVal h4 with
            | some a, some b, some x, some d =>
              let n := ((a * 16 + b) * 16 + x) * 16 + d
              if 0xd800 ≤ n ∧ n ≤ 0xdbff then
                match rest3 with
                | '\\' :: 'u' :: g1 :: g2 :: g3 :: g4 :: rest4 =>
                  match hexVal g1, hexVal g2, hexVal g3, hexVal g4 with
                  | some a2, some b2, some x2, some d2 =>
                    let m := ((a2 * 16 + b2) * 16 + x2) * 16 + d2
                    if 0xdc00 ≤ m ∧ m ≤ 0xdfff then
                      match parseStringBodyF f rest4 with
                      | some (s, r) => some (surrogatePairChar n m :: s, r)
                      | none => none
                    else
                      match parseStringBodyF f rest3 with
                      | some (s, r) => some ('�' :: s, r)
                      | none => none
                  | _, _, _, _ => none
                | _ =>
                  match parseStringBodyF f rest3 with
                  | some (s, r) => some ('�' :: s, r)
                  | none => none
              else
                match parseStringBodyF f rest3 with
                | some (s, r) => some (charOfScalar n :: s, r)
                | none => none
            | _, _, _, _ => none
          | _ => none
        else
          match simpleEsc e with
          | some ec =>
            match parseStringBodyF f rest2 with
            | some (s, r) => some (ec :: s, r)
            | none => none
          | none => none
    else if c.toNat < 0x20 then none
    else
      match parseStringBodyF f rest with
      | some (s, r) => some (c :: s, r)
      | none => none

def parseStringBody (l : Chars) : Option (Chars × Chars) :=
  parseStringBodyF (l.length + 1) l

def parseExpOpt (input : Chars) : Option (Chars × Chars) :=
  match input with
  | 'e' :: r =>
    let (sgn, r1) :=
      match r with
      | '+' :: rr => ((['+'] : Chars), rr)
      | '-' :: rr => ((['-'] : Chars), rr)
      | _ => (([] : Chars), r)
    match r1.span (fun c => c.isDigit) with
    | ([], _) => none
    | (ds, rest) => some ('e' :: sgn ++ ds, rest)
  | 'E' :: r =>
    let (sgn, r1) :=
      match r with
      | '+' :: rr => ((['+'] : Chars), rr)
      | '-' :: rr => ((['-'] : Chars), rr)
      | _ => (([] : Chars), r)
    match r1.span (fun c => c.isDigit) with
    | ([], _) => none
    | (ds, rest) => some ('E' :: sgn ++ ds, rest)
  | _ => some ([], input)

def parseFracOpt (input : Chars) : Option (Chars × Chars) :=
  match input with
  | '.' :: r =>
    match r.span (fun c => c.isDigit) with
    | ([], _) => none
    | (ds, rest) => some ('.' :: ds, rest)
  | _ => some ([], input)

/-- JSON number grammar; the lexeme is returned unevaluated. -/
def parseNumber (input : Chars) : Option (Chars × Chars) :=
  let (sgn, r1) :=
    match input with
    | '-' :: r => ((['-'] : Chars), r)
    | _ => (([] : Chars), input)
  match r1 with
  | '0' :: r2 =>
    match parseFracOpt r2 with
    | none => none
    | some (fr, r3) =>
      match parseExpOpt r3 with
      | none => none
      | some (ex, r4) => some (sgn ++ '0' :: fr ++ ex, r4)
  | c :: r2 =>
    if c.isDigit then
      let (ds, r3) := r2.span (fun d => d.isDigit)
      match parseFracOpt r3 with
      | none => none
      | some (fr, r4) =>
        match parseExpOpt r4 with
        | none => none
        | some (ex, r5) => some (sgn ++ c :: ds ++ fr ++ ex, r5)
    else none
  | [] => none

/-- Mode of the recursive-descent JSON reader: a value, or the tail of an
object body, or the tail of an array body (accumulated fields in order,
so a duplicate key keeps its later occurrence, as JSON.parse does). -/
inductive PMode where
  | value
  | members (acc : List (Chars × Json))
  | elements (acc : List Json)

/-- Recursive descent for JSON.parse.  The fuel only bounds the recursion
depth for the termination checker; every recursive call first consumes at
least one input character, so fuel of input length plus one never runs out. -/
def parseCore : Nat → PMode → Chars → Option (Json × Chars)
  | 0, _, _ => none
  | f+1, .value, input =>
    match skipWs input with
    | [] => none
    | c :: rest =>
      if c = '\x7b' then
        match skipWs rest with
        | '\x7d' :: r2 => some (.obj [], r2)
        | _ => parseCore f (.members []) rest
      else if c = '[' then
        match skipWs rest with
        | ']' :: r2 => some (.arr [], r2)
        | _ => parseCore f (.elements []) rest
      else if c = '"' then
        match parseStringBody rest with
        | some (s, r2) => some (.str s, r2)
        | none => none
      else if c = 't' then
        match rest with
        | 'r' :: 'u' :: 'e' :: r2 => some (.bool true, r2)
        | _ => none
      else if c = 'f' then
        match rest with
        | 'a' :: 'l' :: 's' :: 'e' :: r2 => some (.bool false, r2)
        | _ => none
      else if c = 'n' then
        match rest with
        | 'u' :: 'l' :: 'l' :: r2 => some (.null, r2)
        | _ => none
      else
        match parseNumber (c :: rest) with
        | some (lex, r2) => some (.num lex, r2)
        | none => none
  | f+1, .members acc, input =>
    match skipWs input with
    | '"' :: rest =>
      match parseStringBody rest with
      | none => none
      | some (key, r1) =>
        match skipWs r1 with
        | ':' :: r2 =>
          match parseCore f .value r2 with
          | none => none
          | some (v, r3) =>
            match skipWs r3 with
            | ',' :: r4 => parseCore f (.members (acc ++ [(key, v)])) r4
            | '\x7d' :: r4 => some (.obj (acc ++ [(key, v)]), r4)
            | _ => none
        | _ => none
    | _ => none
  | f+1, .elements acc, input =>
    match parseCore f .value input with
    | none => none
    | some (v, r1) =>
      match skipWs r1 with
      | ',' :: r2 => parseCore f (.elements (acc ++ [v])) r2
      | ']' :: r2 => some (.arr (acc ++ [v]), r2)
      | _ => none

/-- JSON.parse: a complete value with only whitespace around it. -/
def parseJson (s : Chars) : Option Json :=
  match parseCore (s.length + 1) .value s with
  | some (v, rest) => if (skipWs rest).isEmpty then some v else none
  | none => none

def hexDigitLower (k : Nat) : Char :=
  if k < 10 then Char.ofNat (48 + k) else Char.ofNat (87 + k)

/-- Escape of one character inside a JSON.stringify string literal. -/
def escapeChar (c : Char) : Chars :=
  if c = '"' then ['\\', '"']
  else if c = '\\' then ['\\', '\\']
  else if c = '\x08' then ['\\', 'b']
  else if c = '\x0c' then ['\\', 'f']
  else if c = '\n' then ['\\', 'n']
  else if c = '\r' then ['\\', 'r']
  else if c = '\t' then ['\\', 't']
  else if c.toNat < 0x20 then
    ['\\', 'u', '0', '0', hexDigitLower (c.toNat / 16), hexDigitLower (c.toNat % 16)]
  else [c]

def escapeString (s : Chars) : Chars := s.flatMap escapeChar

def quoteString (s : Chars) : Chars := '"' :: escapeString s ++ ['"']

mutual

/-- JSON.stringify on a parsed JSON value (numbers keep their lexeme; the
route only ever stringifies values that came out of JSON.parse). -/
def stringifyJson : Json → Chars
  | .null => "null".toList
  | .bool true => "true".toList
  | .bool false => "false".toList
  | .num lex => lex
  | .str s => quoteString s
  | .arr xs => '[' :: stringifyElems xs ++ [']']
  | .obj fs => '\x7b' :: stringifyFields fs ++ ['\x7d']

def stringifyElems : List Json → Chars
  | [] => []
  | [x] => stringifyJson x
  | x :: xs => stringifyJson x ++ ',' :: stringifyElems xs

def stringifyFields : List (Chars × Json) → Chars
  | [] => []
  | [(k, v)] => quoteString k ++ ':' :: stringifyJson v
  | (k, v) :: fs =>
    quoteString k ++ ':' :: stringifyJson v ++ ',' :: stringifyFields fs

end

/-- Truthiness of a JSON value under JavaScript coercion: the empty string,
zero and minus zero (any lexeme whose mantissa digits are all zero), null and
false are falsy; every object and array is truthy. -/
def jsonTruthy : Json → Bool
  | .null => false
  | .bool b => b
  | .str s => !s.isEmpty
  | .num lex =>
    !(((lex.takeWhile (fun c => c != 'e' && c != 'E')).filter
        (fun c => c.isDigit)).all (fun c => c == '0'))
  | .arr _ => true
  | .obj _ => true

/-- Truthiness of a JavaScript property-access result; a missing property is
undefined, which is falsy. -/
def optTruthy : Option Json → Bool
  | none => false
  | some v => jsonTruthy v

/-- JavaScript property access v[k]: defined (only) on objects; JSON.parse
keeps the last occurrence of a duplicated key, which the accumulated field
list realises by taking the last match. -/
def jsGet (v : Json) (k : Chars) : Option Json :=
  match v with
  | .obj fs =>
    match fs.reverse.find? (fun p => p.1 == k) with
    | some p => some p.2
    | none => none
  | _ => none

mutual

/-- JavaScript string coercion as performed by the += operator on the client
when a decoded field is truthy.  Exact for strings (the only case any claim
exercises); booleans and null render as their names, a number renders as its
lexeme (exact for the integer lexemes that can occur here, while JavaScript
would re-format exotic lexemes), arrays join their elements with commas
rendering null elements as empty, and objects render as the fixed
object-Object marker. -/
def jsToString : Json → Chars
  | .null => "null".toList
  | .bool true => "true".toList
  | .bool false => "false".toList
  | .num lex => lex
  | .str s => s
  | .arr xs => jsJoinElems xs
  | .obj _ => "[object Object]".toList

def jsJoinElems : List Json → Chars
  | [] => []
  | [Json.null] => []
  | [x] => jsToString x
  | Json.null :: xs => ',' :: jsJoinElems xs
  | x :: xs => jsToString x ++ ',' :: jsJoinElems xs

end

/- ============================================================
   Server side: the POST handler of src/app/api/chat/route.ts
   ============================================================ -/

/-- One parsed NDJSON line as the route sees it: destructuring
json.message (or the empty object when json.message is falsy) gives the
optional thinking and content properties, and json.done is read for the
completion marker. -/
structure Frame where
  thinking : Option Json
  content : Option Json
  done : Bool

/-- Channel extraction from a parsed line (route.ts line 106 and 115). -/
def extractFrame (j : Json) : Frame :=
  let msg :=
    match jsGet j "message".toList with
    | some m => if jsonTruthy m then m else Json.obj []
    | none => Json.obj []
  { thinking := jsGet msg "thinking".toList,
    content := jsGet msg "content".toList,
    done := optTruthy (jsGet j "done".toList) }

/-- Per-line processing of the server loop: a blank line is skipped, any
other line is handed to JSON.parse, and a parse failure is swallowed by the
try/catch (route.ts lines 100-120). -/
def lineFrame (line : Chars) : Option Frame :=
  if (trim line).isEmpty then none
  else (parseJson line).map extractFrame

/-- The present properties of the object literal with thinking and content
shorthand fields: JSON.stringify omits a property whose value is undefined,
and the literal writes thinking first. -/
def payloadObj (th co : Option Json) : Json :=
  .obj ((th.map (fun v => ("thinking".toList, v))).toList ++
        (co.map (fun v => ("content".toList, v))).toList)

def doneEvent : Chars := "data: [DONE]\n\n".toList

/-- SSE events enqueued for one parsed frame (route.ts lines 109-117): a
data event when thinking or content is truthy, then the terminal sentinel
when json.done is truthy. -/
def frameEvents (fr : Frame) : List Chars :=
  (if optTruthy fr.thinking || optTruthy fr.content then
    ["data: ".toList ++ stringifyJson (payloadObj fr.thinking fr.content) ++
      "\n\n".toList]
   else []) ++
  (if fr.done then [doneEvent] else [])

/-- Frames produced by one decoded chunk: the chunk is split on newlines and
every segment, including the last, is processed immediately — the route
keeps no carry-over between reads. -/
def chunkFrames (chunk : Chars) : List Frame :=
  (splitOnNl chunk).filterMap lineFrame

/-- Frames produced by the whole read loop over a sequence of chunks. -/
def serverFrames (chunks : List Chars) : List Frame :=
  chunks.flatMap chunkFrames

def chunkEvents (chunk : Chars) : List Chars :=
  (chunkFrames chunk).flatMap frameEvents

/-- SSE events enqueued by the whole read loop, in order. -/
def serverEvents (chunks : List Chars) : List Chars :=
  (serverFrames chunks).flatMap frameEvents

/-- Result of the upstream fetch: the connection may fail (fetch throws),
or return a response with an ok flag and an optional body of chunks. -/
inductive FetchResult where
  | failed
  | ok (okFlag : Bool) (body : Option (List Chars))

/-- Response of the POST handler: either Response.json with a status, or a
streaming Response whose headers carry the content type. -/
inductive ApiResponse where
  | json (status : Nat) (body : Json)
  | stream (status : Nat) (contentType : Chars) (events : List Chars)

def connectErrorBody : Json :=
  .obj [("error".toList, .str "Ollama 连接失败".toList)]

def internalErrorBody : Json :=
  .obj [("error".toList, .str "服务器内部错误".toList)]

/-- The POST handler: request.json() rejects an invalid body, and the
destructuring on line 68 throws when the parsed body is the JSON null
value (destructuring null raises a TypeError in JavaScript, while every
other JSON value, primitives included, destructures without throwing);
both land in the outer catch of line 138.  A throwing fetch is caught the
same way, a non-ok response or missing body yields the non-streaming 500
(line 80), and otherwise a 200 streaming response with the SSE content
type relays the parsed chunks (lines 84-137). -/
def POST (body : Chars) (fetched : FetchResult) : ApiResponse :=
  match parseJson body with
  | none => .json 500 internalErrorBody
  | some .null => .json 500 internalErrorBody
  | some _ =>
    match fetched with
    | .failed => .json 500 internalErrorBody
    | .ok okFlag obody =>
      match obody with
      | none => .json 500 connectErrorBody
      | some chunks =>
        if okFlag then
          .stream 200 "text/event-stream".toList (serverEvents chunks)
        else .json 500 connectErrorBody

/- ============================================================
   Client side: handleSubmit / handleStop of the chat page
   ============================================================ -/

/-- One decoded SSE unit on the client: the raw terminal sentinel, or a
JSON-parsed payload. -/
inductive ClientEvent where
  | doneMarker
  | payload (j : Json)

/-- Client processing of one line of a decoded read (page lines 264-274):
keep it only when it starts with the data prefix, drop the first five
characters, trim, compare against the sentinel, and otherwise JSON.parse
(failures swallowed by the try/catch). -/
def decodeLine (line : Chars) : Option ClientEvent :=
  if "data:".toList.isPrefixOf line then
    let data := trim (line.drop 5)
    if data = "[DONE]".toList then some .doneMarker
    else
      match parseJson data with
      | some j => some (.payload j)
      | none => none
  else none

/-- Events decoded from one read: the read is split on newlines with no
buffering of a partial trailing line between reads. -/
def decodeChunk (chunk : Chars) : List ClientEvent :=
  (splitOnNl chunk).filterMap decodeLine

def decodeChunks (chunks : List Chars) : List ClientEvent :=
  chunks.flatMap decodeChunk

/-- The running thinking and content accumulators of one streaming turn. -/
structure Draft where
  thinking : Chars
  content : Chars

def draftInit : Draft := ⟨[], []⟩

/-- One conditional append: content += json.content runs only when the
decoded property is truthy, coercing the value to a string. -/
def appendField (cur : Chars) (v : Option Json) : Chars :=
  match v with
  | some x => if jsonTruthy x then cur ++ jsToString x else cur
  | none => cur

/-- Application of one parsed payload (page lines 275-282): both channels
are extended and an updated snapshot of the draft is published. -/
def applyPayload (st : Draft) (j : Json) : Draft :=
  { thinking := appendField st.thinking (jsGet j "thinking".toList),
    content := appendField st.content (jsGet j "content".toList) }

/-- One line of the client loop: a sentinel line is skipped with continue, a
payload is applied and published, anything else (non-data line, parse
failure) leaves the state untouched and publishes nothing. -/
def lineStep (st : Draft) (line : Chars) : Draft × List Draft :=
  match decodeLine line with
  | none => (st, [])
  | some .doneMarker => (st, [])
  | some (.payload j) =>
    let st1 := applyPayload st j
    (st1, [st1])

/-- The inner for-loop over the lines of one read, collecting the published
snapshots in order. -/
def runLines (st : Draft) : List Chars → Draft × List Draft
  | [] => (st, [])
  | l :: ls =>
    let r1 := lineStep st l
    let r2 := runLines r1.1 ls
    (r2.1, r1.2 ++ r2.2)

/-- The outer while-loop over the reads of the SSE stream. -/
def runChunks (st : Draft) : List Chars → Draft × List Draft
  | [] => (st, [])
  | c :: cs =>
    let r1 := runLines st (splitOnNl c)
    let r2 := runChunks r1.1 cs
    (r2.1, r1.2 ++ r2.2)

/- ============================================================
   The surrounding turn: messages, cancellation, failure
   ============================================================ -/

inductive Role where
  | user
  | assistant

/-- The client Message shape: role, content, optional thinking. -/
structure Message where
  role : Role
  content : Chars
  thinking : Option Chars

/-- The snapshot written over the last transcript entry on every applied
fragment (page lines 279-282). -/
def draftMessage (st : Draft) : Message :=
  ⟨.assistant, st.content, some st.thinking⟩

/-- Messages visible after the streaming loop published the given
snapshots: each snapshot replaced the last entry, so only the final one
remains; with no snapshot the initial draft entry is untouched. -/
def streamMessages (base : List Message) (snaps : List Draft) : List Message :=
  match snaps.getLast? with
  | none => base
  | some st => base.dropLast ++ [draftMessage st]

/-- The transcript at the start of a turn: prior messages, the new user
message, and the empty assistant draft (page line 232). -/
def initialMessages (prior : List Message) (input : Chars) : List Message :=
  prior ++ [⟨.user, input, none⟩, ⟨.assistant, [], none⟩]

def errorMarker : Chars := "\n\n[出错了，请重试]".toList

/-- The non-cancellation error path (page lines 292-295): the last message
is replaced by a copy whose content has the fixed marker appended.  The
empty case cannot be reached in a turn, which always starts by appending
the draft entry. -/
def appendMarkerToLast (msgs : List Message) : List Message :=
  match msgs.getLast? with
  | none => []
  | some m => msgs.dropLast ++ [{ m with content := m.content ++ errorMarker }]

/-- How one turn ends: normal end of stream, an AbortError raised by user
cancellation, or any other error thrown by the read loop. -/
inductive TurnEnd where
  | completed
  | aborted
  | failed

/-- The catch block of handleSubmit: only a non-abort error mutates the
transcript (logging replaces re-raising); the error marker is appended in
exactly that case. -/
def settleMessages : TurnEnd → List Message → List Message
  | .failed, msgs => appendMarkerToLast msgs
  | _, msgs => msgs

structure UiState where
  messages : List Message
  isLoading : Bool

/-- The catch/finally tail of handleSubmit: messages per the catch block,
and the loading flag always cleared by the finally block. -/
def finishTurn (e : TurnEnd) (ui : UiState) : UiState :=
  ⟨settleMessages e ui.messages, false⟩

/-- handleStop (page lines 216-220): aborts the in-flight request and
clears the loading flag; the transcript is untouched. -/
def handleStop (ui : UiState) : UiState :=
  ⟨ui.messages, false⟩

/-- One whole turn observed at its end: the snapshots of the streamed
chunks are folded into the transcript, then the turn ends as given. -/
def runTurn (prior : List Message) (input : Chars) (chunks : List Chars)
    (e : TurnEnd) : UiState :=
  finishTurn e
    ⟨streamMessages (initialMessages prior input) (runChunks draftInit chunks).2,
     true⟩

/-- The SSE encoder of route.ts line 110: one data line followed by the
blank line, the payload being the stringified object literal. -/
def sseEncode (th co : Option Json) : Chars :=
  "data: ".toList ++ stringifyJson (payloadObj th co) ++ "\n\n".toList

/-- Pointwise prefix order on the two draft channels. -/
def draftLe (a b : Draft) : Prop :=
  a.thinking <+: b.thinking ∧ a.content <+: b.content

/- ============================================================
   Helper lemmas
   ============================================================ -/

theorem splitOnNl_ne_nil (l : Chars) : splitOnNl l ≠ [] := by
  induction l with
  | nil => simp [splitOnNl]
  | cons c rest ih =>
    simp only [splitOnNl]
    split
    · simp
    · split
      · simp
      · simp

theorem splitOnNl_append_nl (a b : Chars) :
    splitOnNl (a ++ '\n' :: b) = splitOnNl a ++ splitOnNl b := by
  induction a with
  | nil => simp [splitOnNl]
  | cons c a ih =>
    by_cases hc : c = '\n'
    · subst hc
      simp [splitOnNl, ih]
    · obtain ⟨s, ss, hs⟩ := List.exists_cons_of_ne_nil (splitOnNl_ne_nil a)
      simp [splitOnNl, hc, ih, hs]

theorem splitOnNl_trailing (a : Chars) :
    splitOnNl (a ++ ['\n']) = splitOnNl a ++ [[]] := by
  simpa using splitOnNl_append_nl a []

theorem splitOnNl_single {l : Chars} (h : '\n' ∉ l) : splitOnNl l = [l] := by
  induction l with
  | nil => rfl
  | cons c rest ih =>
    simp only [List.mem_cons, not_or] at h
    have hc : ¬ c = '\n' := fun hh => h.1 hh.symm
    simp [splitOnNl, hc, ih h.2]

theorem exists_append_nl {c : Chars} (h : c.getLast? = some '\n') :
    ∃ a, c = a ++ ['\n'] := by
  induction c with
  | nil => simp at h
  | cons x xs ih =>
    cases xs with
    | nil =>
      simp [List.getLast?_singleton] at h
      exact ⟨[], by simp [h]⟩
    | cons y ys =>
      rw [List.getLast?_cons_cons] at h
      obtain ⟨a, ha⟩ := ih h
      exact ⟨x :: a, by simp [ha]⟩

theorem chunkFrames_append {a : Chars} (b : Chars)
    (h : a.getLast? = some '\n') :
    chunkFrames (a ++ b) = chunkFrames a ++ chunkFrames b := by
  obtain ⟨a0, rfl⟩ := exists_append_nl h
  have h1 : a0 ++ ['\n'] ++ b = a0 ++ '\n' :: b := by simp
  rw [chunkFrames, chunkFrames, chunkFrames, h1, splitOnNl_append_nl,
    splitOnNl_trailing, List.filterMap_append, List.filterMap_append]
  have h2 : List.filterMap lineFrame [[]] = ([] : List Frame) := rfl
  rw [h2, List.append_nil]

theorem serverFrames_flatten (chunks : List Chars)
    (h : ∀ c ∈ chunks.dropLast, c = [] ∨ c.getLast? = some '\n') :
    serverFrames chunks = chunkFrames chunks.flatten := by
  induction chunks with
  | nil => rfl
  | cons c cs ih =>
    cases cs with
    | nil => simp [serverFrames, chunkFrames]
    | cons d ds =>
      have hc : c = [] ∨ c.getLast? = some '\n' := by
        apply h
        simp
      have hrest : ∀ x ∈ (d :: ds).dropLast, x = [] ∨ x.getLast? = some '\n' := by
        intro x hx
        apply h
        simp only [List.dropLast_cons₂, List.mem_cons]
        right
        exact hx
      have ihx := ih hrest
      rcases hc with hc | hc
      · subst hc
        have : serverFrames ([] :: d :: ds) = serverFrames (d :: ds) := by
          simp [serverFrames, chunkFrames, splitOnNl]
          rfl
        rw [this, ihx]
        simp
      · rw [serverFrames, List.flatMap_cons, ← serverFrames, ihx]
        simp only [List.flatten_cons]
        rw [chunkFrames_append _ hc]

theorem decodeChunk_append {a : Chars} (b : Chars)
    (h : a.getLast? = some '\n') :
    decodeChunk (a ++ b) = decodeChunk a ++ decodeChunk b := by
  obtain ⟨a0, rfl⟩ := exists_append_nl h
  have h1 : a0 ++ ['\n'] ++ b = a0 ++ '\n' :: b := by simp
  rw [decodeChunk, decodeChunk, decodeChunk, h1, splitOnNl_append_nl,
    splitOnNl_trailing, List.filterMap_append, List.filterMap_append]
  have h2 : List.filterMap decodeLine [[]] = ([] : List ClientEvent) := rfl
  rw [h2, List.append_nil]

theorem decodeChunks_flatten (chunks : List Chars)
    (h : ∀ c ∈ chunks.dropLast, c = [] ∨ c.getLast? = some '\n') :
    decodeChunks chunks = decodeChunk chunks.flatten := by
  induction chunks with
  | nil => rfl
  | cons c cs ih =>
    cases cs with
    | nil => simp [decodeChunks, decodeChunk]
    | cons d ds =>
      have hc : c = [] ∨ c.getLast? = some '\n' := by
        apply h
        simp
      have hrest : ∀ x ∈ (d :: ds).dropLast, x = [] ∨ x.getLast? = some '\n' := by
        intro x hx
        apply h
        simp only [List.dropLast_cons₂, List.mem_cons]
        right
        exact hx
      have ihx := ih hrest
      rcases hc with hc | hc
      · subst hc
        have he : decodeChunks ([] :: d :: ds) = decodeChunks (d :: ds) := by
          simp [decodeChunks, decodeChunk, splitOnNl]
          rfl
        rw [he, ihx]
        simp
      · rw [decodeChunks, List.flatMap_cons, ← decodeChunks, ihx]
        simp only [List.flatten_cons]
        rw [decodeChunk_append _ hc]

theorem runLines_append (st : Draft) (l1 l2 : List Chars) :
    runLines st (l1 ++ l2) =
      ((runLines (runLines st l1).1 l2).1,
       (runLines st l1).2 ++ (runLines (runLines st l1).1 l2).2) := by
  induction l1 generalizing st with
  | nil => simp [runLines]
  | cons l ls ih => simp [runLines, ih]

theorem runLines_blank (st : Draft) : runLines st [[]] = (st, []) := rfl

theorem runChunks_cons (st : Draft) (c : Chars) (cs : List Chars) :
    runChunks st (c :: cs) =
      ((runChunks (runLines st (splitOnNl c)).1 cs).1,
       (runLines st (splitOnNl c)).2 ++
         (runChunks (runLines st (splitOnNl c)).1 cs).2) := by
  simp [runChunks]

theorem runChunks_single (st : Draft) (x : Chars) :
    runChunks st [x] = runLines st (splitOnNl x) := by
  simp [runChunks]

theorem runLines_split_nl (st : Draft) {c : Chars} (r : Chars)
    (hc : c.getLast? = some '\n') :
    runLines st (splitOnNl (c ++ r)) =
      ((runLines (runLines st (splitOnNl c)).1 (splitOnNl r)).1,
       (runLines st (splitOnNl c)).2 ++
         (runLines (runLines st (splitOnNl c)).1 (splitOnNl r)).2) := by
  obtain ⟨a0, rfl⟩ := exists_append_nl hc
  have h1 : a0 ++ ['\n'] ++ r = a0 ++ '\n' :: r := by simp
  rw [h1, splitOnNl_append_nl, splitOnNl_trailing]
  simp [runLines_append, runLines_blank]

theorem runChunks_flatten (chunks : List Chars)
    (h : ∀ c ∈ chunks.dropLast, c = [] ∨ c.getLast? = some '\n') :
    ∀ st, runChunks st chunks = runChunks st [chunks.flatten] := by
  induction chunks with
  | nil => intro st; rfl
  | cons c cs ih =>
    intro st
    cases cs with
    | nil => simp [runChunks]
    | cons d ds =>
      have hc : c = [] ∨ c.getLast? = some '\n' := by
        apply h
        simp
      have hrest : ∀ x ∈ (d :: ds).dropLast, x = [] ∨ x.getLast? = some '\n' := by
        intro x hx
        apply h
        simp only [List.dropLast_cons₂, List.mem_cons]
        right
        exact hx
      rcases hc with hc | hc
      · subst hc
        have he : runChunks st ([] :: d :: ds) = runChunks st (d :: ds) := by
          simp [runChunks, splitOnNl, runLines_blank]
        have hf : (([] : Chars) :: d :: ds).flatten = (d :: ds).flatten := by simp
        rw [he, hf, ih hrest st]
      · rw [runChunks_cons, ih hrest]
        have hf : ((c :: d :: ds).flatten : Chars) = c ++ (d :: ds).flatten := by
          simp
        rw [hf, runChunks_single st (c ++ (d :: ds).flatten),
          runLines_split_nl st _ hc, ← runChunks_single]
        simp [runChunks_single]

theorem serverFrames_single (x : Chars) : serverFrames [x] = chunkFrames x := by
  simp [serverFrames]

theorem serverEvents_eq_of_frames {c1 c2 : List Chars}
    (h : serverFrames c1 = serverFrames c2) : serverEvents c1 = serverEvents c2 := by
  rw [serverEvents, serverEvents, h]

theorem runLines_skip (st : Draft) (ls1 ls2 : List Chars) (d : Chars)
    (hd : ∀ s : Draft, lineStep s d = (s, [])) :
    runLines st (ls1 ++ d :: ls2) = runLines st (ls1 ++ ls2) := by
  have h : ∀ s : Draft, runLines s (d :: ls2) = runLines s ls2 := by
    intro s
    simp [runLines, hd s]
  rw [runLines_append, runLines_append, h]

/-- C1, counterexample.  The route keeps no carry-over between reads: a
line split inside a JSON token yields two unparseable fragments, both
silently dropped, so the chunked run loses the frame (and its SSE event)
that the unsplit run produces. -/
theorem C1_counterexample :
    serverFrames ["\x7b\"do".toList, "ne\":true\x7d".toList] = [] ∧
    serverFrames ["\x7b\"do".toList ++ "ne\":true\x7d".toList] =
      [⟨none, none, true⟩] ∧
    serverEvents ["\x7b\"do".toList, "ne\":true\x7d".toList] = [] ∧
    serverEvents ["\x7b\"do".toList ++ "ne\":true\x7d".toList] = [doneEvent] :=
  ⟨rfl, rfl, rfl, rfl⟩

/-- C1, amended.  The server loop keeps no carry-over: every
newline-separated segment of each chunk, including the last, is parsed
immediately, so a line split across a chunk boundary is lost.  Chunked
processing agrees with the unsplit input exactly on the splits that fall
on line boundaries: when every chunk before the last is empty or ends with
a newline, the frames and the SSE events coincide with the unsplit run. -/
theorem C1_amended (chunks : List Chars)
    (h : ∀ c ∈ chunks.dropLast, c = [] ∨ c.getLast? = some '\n') :
    serverFrames chunks = serverFrames [chunks.flatten] ∧
    serverEvents chunks = serverEvents [chunks.flatten] := by
  have hf : serverFrames chunks = serverFrames [chunks.flatten] := by
    rw [serverFrames_flatten chunks h, serverFrames_single]
  exact ⟨hf, serverEvents_eq_of_frames hf⟩

/-- C1, witness: two NDJSON lines delivered as two newline-terminated
chunks process exactly as the unsplit input. -/
theorem C1_witness :
    (∀ c ∈ ([("\x7b\"message\":\x7b\"content\":\"Hi\"\x7d,\"done\":false\x7d\n").toList,
             ("\x7b\"done\":true\x7d\n").toList] : List Chars).dropLast,
       c = [] ∨ c.getLast? = some '\n') ∧
    (serverFrames [("\x7b\"message\":\x7b\"content\":\"Hi\"\x7d,\"done\":false\x7d\n").toList,
                   ("\x7b\"done\":true\x7d\n").toList] =
      serverFrames [([("\x7b\"message\":\x7b\"content\":\"Hi\"\x7d,\"done\":false\x7d\n").toList,
                      ("\x7b\"done\":true\x7d\n").toList] : List Chars).flatten] ∧
     serverEvents [("\x7b\"message\":\x7b\"content\":\"Hi\"\x7d,\"done\":false\x7d\n").toList,
                   ("\x7b\"done\":true\x7d\n").toList] =
      serverEvents [([("\x7b\"message\":\x7b\"content\":\"Hi\"\x7d,\"done\":false\x7d\n").toList,
                      ("\x7b\"done\":true\x7d\n").toList] : List Chars).flatten]) :=
  ⟨by decide, C1_amended _ (by decide)⟩

/-- C3, counterexample.  The client read loop keeps no buffer of partial
reads: an event line split across two reads is dropped (the first part
fails to parse, the second does not carry the data prefix), so the split
stream decodes to nothing while the unsplit stream yields the payload. -/
theorem C3_counterexample :
    decodeChunks ["data: \x7b\"cont".toList, "ent\":\"Hi\"\x7d\n\n".toList] = [] ∧
    decodeChunks ["data: \x7b\"cont".toList ++ "ent\":\"Hi\"\x7d\n\n".toList] =
      [.payload (Json.obj [("content".toList, Json.str "Hi".toList)])] ∧
    (runChunks draftInit ["data: \x7b\"cont".toList, "ent\":\"Hi\"\x7d\n\n".toList]).1.content
      = [] ∧
    (runChunks draftInit ["data: \x7b\"cont".toList ++ "ent\":\"Hi\"\x7d\n\n".toList]).1.content
      = "Hi".toList :=
  ⟨rfl, rfl, rfl, rfl⟩

/-- C3, amended.  The client SSE loop buffers nothing between reads: each
read is split on newlines and processed at once, so an event split across
reads is lost.  The decoded event sequence, the final draft state and the
published snapshots agree with the single-read case exactly when every
read before the last is empty or ends with a newline. -/
theorem C3_amended (chunks : List Chars)
    (h : ∀ c ∈ chunks.dropLast, c = [] ∨ c.getLast? = some '\n') :
    decodeChunks chunks = decodeChunks [chunks.flatten] ∧
    runChunks draftInit chunks = runChunks draftInit [chunks.flatten] := by
  constructor
  · rw [decodeChunks_flatten chunks h]
    simp [decodeChunks]
  · exact runChunks_flatten chunks h draftInit

/-- C3, witness: two SSE events delivered as two newline-terminated reads
decode and apply exactly as the single unsplit read. -/
theorem C3_witness :
    (∀ c ∈ ([("data: \x7b\"thinking\":\"T\"\x7d\n\n").toList,
             ("data: \x7b\"content\":\"Hi\"\x7d\n\n").toList] : List Chars).dropLast,
       c = [] ∨ c.getLast? = some '\n') ∧
    (decodeChunks [("data: \x7b\"thinking\":\"T\"\x7d\n\n").toList,
                   ("data: \x7b\"content\":\"Hi\"\x7d\n\n").toList] =
       decodeChunks [([("data: \x7b\"thinking\":\"T\"\x7d\n\n").toList,
                       ("data: \x7b\"content\":\"Hi\"\x7d\n\n").toList] : List Chars).flatten] ∧
     runChunks draftInit [("data: \x7b\"thinking\":\"T\"\x7d\n\n").toList,
                          ("data: \x7b\"content\":\"Hi\"\x7d\n\n").toList] =
       runChunks draftInit [([("data: \x7b\"thinking\":\"T\"\x7d\n\n").toList,
                              ("data: \x7b\"content\":\"Hi\"\x7d\n\n").toList] : List Chars).flatten]) :=
  ⟨by decide, C3_amended _ (by decide)⟩

/-- C2, counterexample.  The client handles the sentinel with continue,
not break: an event decoded after the terminal sentinel in the same
stream is still applied, so the draft content becomes X even though the
sentinel preceded that event. -/
theorem C2_counterexample :
    decodeChunk ("data: [DONE]\n\ndata: \x7b\"content\":\"X\"\x7d\n\n").toList =
      [.doneMarker, .payload (Json.obj [("content".toList, Json.str "X".toList)])] ∧
    (runChunks draftInit [("data: [DONE]\n\ndata: \x7b\"content\":\"X\"\x7d\n\n").toList]).1.content
      = "X".toList ∧
    "X".toList ≠ ([] : Chars) :=
  ⟨rfl, rfl, by decide⟩

/-- C2, amended.  A decoded terminal sentinel is skipped without touching
the draft and without publishing a snapshot, but it does not end
consumption: the loop continues and events after it are still applied
(deleting a sentinel line from the line sequence never changes the run). -/
theorem C2_amended (st : Draft) (ls1 ls2 : List Chars) (d : Chars)
    (h1 : "data:".toList.isPrefixOf d = true)
    (h2 : trim (d.drop 5) = "[DONE]".toList) :
    runLines st (ls1 ++ d :: ls2) = runLines st (ls1 ++ ls2) := by
  apply runLines_skip
  intro s
  have hd : decodeLine d = some ClientEvent.doneMarker := by
    rw [decodeLine, h1]
    simp [h2]
  simp [lineStep, hd]

/-- C2, witness: deleting a concrete sentinel line between two payload
lines leaves the run unchanged. -/
theorem C2_witness :
    ("data:".toList.isPrefixOf "data: [DONE]".toList = true) ∧
    (trim (("data: [DONE]").toList.drop 5) = "[DONE]".toList) ∧
    runLines draftInit
        (["data: \x7b\"thinking\":\"T\"\x7d".toList] ++
          "data: [DONE]".toList :: ["data: \x7b\"content\":\"Hi\"\x7d".toList]) =
      runLines draftInit
        (["data: \x7b\"thinking\":\"T\"\x7d".toList] ++
          ["data: \x7b\"content\":\"Hi\"\x7d".toList]) :=
  ⟨rfl, rfl, C2_amended draftInit _ _ _ rfl rfl⟩

/-- C6.  Soft failure at both layers: a line that JSON.parse rejects
contributes nothing on the server (the frame sequence is as if the line
were absent, so later valid lines keep their place and order), and a data
line whose payload JSON.parse rejects contributes nothing on the client
(the run over the remaining lines is unchanged); no error is surfaced and
processing continues in both loops. -/
theorem C6_theorem :
    (∀ (pre post : List Chars) (bad : Chars), parseJson bad = none →
       List.filterMap lineFrame (pre ++ bad :: post) =
         List.filterMap lineFrame (pre ++ post)) ∧
    (∀ (st : Draft) (ls1 ls2 : List Chars) (bad : Chars),
       parseJson (trim (bad.drop 5)) = none →
       runLines st (ls1 ++ bad :: ls2) = runLines st (ls1 ++ ls2)) := by
  constructor
  · intro pre post bad h
    have hb : lineFrame bad = none := by
      rw [lineFrame]
      split
      · rfl
      · rw [h]
        rfl
    simp [List.filterMap_append, List.filterMap_cons, hb]
  · intro st ls1 ls2 bad h
    apply runLines_skip
    intro s
    by_cases h1 : "data:".toList.isPrefixOf bad = true
    · by_cases h2 : trim (bad.drop 5) = "[DONE]".toList
      · have hd : decodeLine bad = some ClientEvent.doneMarker := by
          rw [decodeLine, h1]
          simp [h2]
        simp [lineStep, hd]
      · have h2x : ¬ trim (bad.drop 5) = ['[', 'D', 'O', 'N', 'E', ']'] := h2
        have hx : parseJson (trim (bad.drop 5)) = none := h
        have hd : decodeLine bad = none := by
          rw [decodeLine, h1]
          simp [h2x, hx]
        simp [lineStep, hd]
    · have hd : decodeLine bad = none := by
        rw [decodeLine, if_neg h1]
      simp [lineStep, hd]

/-- C6, witness: a truncated-JSON line between two valid lines on the
server, and a truncated data payload between two valid data lines on the
client, each drop out without disturbing the valid units around them. -/
theorem C6_witness :
    (parseJson "\x7b\"message\":\x7b\"content\":\"Hi".toList = none ∧
     List.filterMap lineFrame
        (["\x7b\"message\":\x7b\"thinking\":\"T\"\x7d,\"done\":false\x7d".toList] ++
          "\x7b\"message\":\x7b\"content\":\"Hi".toList ::
            ["\x7b\"done\":true\x7d".toList]) =
       List.filterMap lineFrame
        (["\x7b\"message\":\x7b\"thinking\":\"T\"\x7d,\"done\":false\x7d".toList] ++
          ["\x7b\"done\":true\x7d".toList])) ∧
    (parseJson (trim (("data: \x7b\"cont").toList.drop 5)) = none ∧
     runLines draftInit
        (["data: \x7b\"thinking\":\"T\"\x7d".toList] ++
          "data: \x7b\"cont".toList :: ["data: \x7b\"content\":\"Hi\"\x7d".toList]) =
       runLines draftInit
        (["data: \x7b\"thinking\":\"T\"\x7d".toList] ++
          ["data: \x7b\"content\":\"Hi\"\x7d".toList])) :=
  ⟨⟨rfl, C6_theorem.1 _ _ _ rfl⟩, ⟨rfl, C6_theorem.2 _ _ _ _ rfl⟩⟩

/-- A body that parses to JSON null never reaches the backend: line 68
throws while destructuring it and the outer catch answers the internal
500, whatever the fetch would have done. -/
theorem POST_null_body (fetched : FetchResult) :
    POST "null".toList fetched = .json 500 internalErrorBody := rfl

/-- C5.  Connect-time behaviour of the relay, for every request whose body
reaches the fetch (its JSON parse yields a non-null value; a null body
throws at the line-68 destructuring and is answered by the outer catch
before any fetch): a throwing fetch, a non-ok status or a missing body
each produce the single non-streaming 500 response with a JSON error
object, and no stream is opened; a successful backend response yields 200
with the event-stream content type carrying the relayed events. -/
theorem C5_theorem (body : Chars) (j : Json) (h : parseJson body = some j)
    (hj : j ≠ Json.null) :
    POST body .failed = .json 500 internalErrorBody ∧
    (∀ okFlag : Bool, POST body (.ok okFlag none) = .json 500 connectErrorBody) ∧
    (∀ chunks, POST body (.ok false (some chunks)) = .json 500 connectErrorBody) ∧
    (∀ chunks, POST body (.ok true (some chunks)) =
       .stream 200 "text/event-stream".toList (serverEvents chunks)) := by
  refine ⟨?_, ?_, ?_, ?_⟩ <;>
    (try intro x) <;>
    cases j <;>
    first
      | exact absurd rfl hj
      | simp [POST, h]

/-- C5, witness: a concrete request body. -/
theorem C5_witness :
    parseJson "\x7b\"messages\":[]\x7d".toList =
      some (Json.obj [("messages".toList, Json.arr [])]) ∧
    Json.obj [("messages".toList, Json.arr [])] ≠ Json.null ∧
    POST "\x7b\"messages\":[]\x7d".toList (.ok true (some ["\x7b\"done\":true\x7d".toList])) =
      .stream 200 "text/event-stream".toList
        (serverEvents ["\x7b\"done\":true\x7d".toList]) :=
  by
  refine ⟨rfl, fun hh => Json.noConfusion hh, ?_⟩
  apply (C5_theorem _ (Json.obj [("messages".toList, Json.arr [])]) ?_ ?_).2.2.2
  · rfl
  · exact fun hh => Json.noConfusion hh

/-- C10.  Any failure before the stream is constructed — a request body
JSON.parse rejects, or the fetch to the backend itself throwing — is
caught and answered with the fixed 500 internal-error JSON body; the
handler is total, so no exception escapes and no stream is opened. -/
theorem C10_theorem :
    (∀ (body : Chars) (fetched : FetchResult), parseJson body = none →
       POST body fetched = .json 500 internalErrorBody) ∧
    (∀ (body : Chars) (j : Json), parseJson body = some j →
       POST body .failed = .json 500 internalErrorBody) := by
  constructor
  · intro body fetched h
    simp [POST, h]
  · intro body j h
    cases j <;> simp [POST, h]

/-- C10, witness: a non-JSON body, and a valid body with a throwing
fetch. -/
theorem C10_witness :
    (parseJson "hello".toList = none ∧
     POST "hello".toList (.ok true (some [])) = .json 500 internalErrorBody) ∧
    (parseJson "\x7b\x7d".toList = some (Json.obj []) ∧
     POST "\x7b\x7d".toList .failed = .json 500 internalErrorBody) :=
  ⟨⟨rfl, C10_theorem.1 _ _ rfl⟩, ⟨rfl, C10_theorem.2 _ _ rfl⟩⟩

theorem appendField_le (cur : Chars) (v : Option Json) :
    cur <+: appendField cur v := by
  cases v with
  | none => exact List.prefix_refl _
  | some x =>
    by_cases hx : jsonTruthy x = true
    · simp only [appendField, hx, if_true]
      exact List.prefix_append _ _
    · simp only [appendField, hx, if_false]
      exact List.prefix_refl _

theorem applyPayload_le (st : Draft) (j : Json) :
    draftLe st (applyPayload st j) :=
  ⟨appendField_le _ _, appendField_le _ _⟩

theorem runLines_chain (ls : List Chars) : ∀ st : Draft,
    List.Chain draftLe st (runLines st ls).2 ∧
    (runLines st ls).2.getLastD st = (runLines st ls).1 := by
  induction ls with
  | nil => intro st; exact ⟨List.Chain.nil, rfl⟩
  | cons l ls ih =>
    intro st
    rcases hdl : decodeLine l with _ | ev
    · have hstep : lineStep st l = (st, []) := by simp [lineStep, hdl]
      have hrw : runLines st (l :: ls) = runLines st ls := by
        simp [runLines, hstep]
      rw [hrw]
      exact ih st
    · cases ev with
      | doneMarker =>
        have hstep : lineStep st l = (st, []) := by simp [lineStep, hdl]
        have hrw : runLines st (l :: ls) = runLines st ls := by
          simp [runLines, hstep]
        rw [hrw]
        exact ih st
      | payload j =>
        have hstep : lineStep st l =
            (applyPayload st j, [applyPayload st j]) := by
          simp [lineStep, hdl]
        have hrw : runLines st (l :: ls) =
            ((runLines (applyPayload st j) ls).1,
             applyPayload st j :: (runLines (applyPayload st j) ls).2) := by
          simp [runLines, hstep]
        rw [hrw]
        obtain ⟨hch, hlast⟩ := ih (applyPayload st j)
        refine ⟨List.Chain.cons (applyPayload_le st j) hch, ?_⟩
        rw [List.getLastD_cons]
        exact hlast

theorem chainAppendD {α : Type} {R : α → α → Prop} :
    ∀ (l1 : List α) (a : α) (l2 : List α), List.Chain R a l1 →
      List.Chain R (l1.getLastD a) l2 → List.Chain R a (l1 ++ l2) := by
  intro l1
  induction l1 with
  | nil =>
    intro a l2 _ h2
    exact h2
  | cons b l ih =>
    intro a l2 h1 h2
    cases h1 with
    | cons hab h1x =>
      rw [List.getLastD_cons] at h2
      exact List.Chain.cons hab (ih b l2 h1x h2)

theorem getLastD_append {α : Type} (l1 l2 : List α) (a : α) :
    (l1 ++ l2).getLastD a = l2.getLastD (l1.getLastD a) := by
  induction l1 generalizing a with
  | nil => rfl
  | cons b l ih =>
    rw [List.cons_append, List.getLastD_cons, List.getLastD_cons, ih]

theorem runChunks_chain (cs : List Chars) : ∀ st : Draft,
    List.Chain draftLe st (runChunks st cs).2 ∧
    (runChunks st cs).2.getLastD st = (runChunks st cs).1 := by
  induction cs with
  | nil => intro st; exact ⟨List.Chain.nil, rfl⟩
  | cons c cs ih =>
    intro st
    obtain ⟨h1, hl1⟩ := runLines_chain (splitOnNl c) st
    obtain ⟨h2, hl2⟩ := ih (runLines st (splitOnNl c)).1
    rw [runChunks_cons]
    constructor
    · apply chainAppendD _ _ _ h1
      rw [hl1]
      exact h2
    · rw [getLastD_append, hl1, hl2]

/-- C7.  The published snapshots of one streaming turn are monotonically
non-decreasing: starting from the empty draft, each published snapshot
extends the previous one, on both the thinking and the content channel,
by the prefix order — fragments are only appended, never rewritten. -/
theorem C7_theorem (chunks : List Chars) :
    List.Chain draftLe draftInit (runChunks draftInit chunks).2 :=
  (runChunks_chain chunks draftInit).1

/-- C8.  User cancellation is terminal but not an error: the transcript
keeps exactly the already-applied fragments (no rollback and no error
marker — the abort branch of the catch leaves the messages untouched) and
the loading flag is cleared by handleStop immediately and by the finally
block, so new submissions become possible at once. -/
theorem C8_theorem (prior : List Message) (input : Chars) (chunks : List Chars)
    (msgs : List Message) (loading : Bool) :
    runTurn prior input chunks .aborted =
      ⟨streamMessages (initialMessages prior input)
         (runChunks draftInit chunks).2, false⟩ ∧
    handleStop ⟨msgs, loading⟩ = ⟨msgs, false⟩ :=
  ⟨rfl, rfl⟩

/-- C9.  Exactly a non-cancellation error appends the fixed user-visible
marker to the last (draft) message content and the turn is force-settled
with the loading flag cleared; any other turn end leaves the transcript
unchanged. -/
theorem C9_theorem (prior : List Message) (input : Chars) (chunks : List Chars) :
    (runTurn prior input chunks .failed).messages =
      appendMarkerToLast
        (streamMessages (initialMessages prior input)
          (runChunks draftInit chunks).2) ∧
    (runTurn prior input chunks .failed).isLoading = false ∧
    (∃ m, (streamMessages (initialMessages prior input)
             (runChunks draftInit chunks).2).getLast? = some m ∧
       (runTurn prior input chunks .failed).messages =
         (streamMessages (initialMessages prior input)
            (runChunks draftInit chunks).2).dropLast ++
           [{ m with content := m.content ++ errorMarker }]) ∧
    (∀ e : TurnEnd, e ≠ .failed →
       (runTurn prior input chunks e).messages =
         streamMessages (initialMessages prior input)
           (runChunks draftInit chunks).2) := by
  refine ⟨rfl, rfl, ?_, ?_⟩
  · cases hsn : (runChunks draftInit chunks).2.getLast? with
    | none =>
      have hS : streamMessages (initialMessages prior input)
          (runChunks draftInit chunks).2 = initialMessages prior input := by
        rw [streamMessages, hsn]
      have hx : initialMessages prior input =
          (prior ++ [⟨.user, input, none⟩]) ++ [⟨.assistant, [], none⟩] := by
        simp [initialMessages]
      have hg : (initialMessages prior input).getLast? =
          some ⟨.assistant, [], none⟩ := by
        rw [hx, List.getLast?_concat]
      refine ⟨⟨.assistant, [], none⟩, ?_, ?_⟩
      · rw [hS, hg]
      · show appendMarkerToLast _ = _
        rw [hS, appendMarkerToLast, hg]
    | some st =>
      have hS : streamMessages (initialMessages prior input)
          (runChunks draftInit chunks).2 =
          (initialMessages prior input).dropLast ++ [draftMessage st] := by
        rw [streamMessages, hsn]
      refine ⟨draftMessage st, ?_, ?_⟩
      · rw [hS, List.getLast?_concat]
      · show appendMarkerToLast _ = _
        rw [hS, appendMarkerToLast, List.getLast?_concat, List.dropLast_concat]
  · intro e he
    cases e with
    | completed => rfl
    | aborted => rfl
    | failed => exact absurd rfl he

/-- C9, witness: cancellation does not append the marker at a concrete
turn. -/
theorem C9_witness :
    (TurnEnd.aborted ≠ TurnEnd.failed) ∧
    (runTurn [] "hi".toList [] .aborted).messages =
      streamMessages (initialMessages [] "hi".toList)
        (runChunks draftInit []).2 :=
  ⟨fun h => TurnEnd.noConfusion h,
   (C9_theorem [] "hi".toList []).2.2.2 .aborted (fun h => TurnEnd.noConfusion h)⟩

theorem hexVal_hexDigitLower : ∀ k, k < 16 → hexVal (hexDigitLower k) = some k := by decide

theorem psbF_simple (F : Nat) (e ec : Char) (tail : Chars)
    (h : simpleEsc e = some ec) (hne : ¬ e = 'u') :
    parseStringBodyF (F + 1) ('\\' :: e :: tail) =
      match parseStringBodyF F tail with
      | some p => some (ec :: p.1, p.2)
      | none => none := by
  simp only [parseStringBodyF]
  simp only [if_true]
  rw [if_neg hne, h, if_neg (show ¬ ('\\' : Char) = '"' from by decide)]
  cases hp : parseStringBodyF F tail with
  | none => rfl
  | some p => rfl

theorem psbF_hex (F : Nat) (k : Nat) (hk : k < 0x20) (tail : Chars) :
    parseStringBodyF (F + 1)
      ('\\' :: 'u' :: '0' :: '0' ::
        hexDigitLower (k / 16) :: hexDigitLower (k % 16) :: tail) =
      match parseStringBodyF F tail with
      | some p => some (Char.ofNat k :: p.1, p.2)
      | none => none := by
  have h0 : hexVal '0' = some 0 := rfl
  have hd1 : hexVal (hexDigitLower (k / 16)) = some (k / 16) :=
    hexVal_hexDigitLower _ (by omega)
  have hd2 : hexVal (hexDigitLower (k % 16)) = some (k % 16) :=
    hexVal_hexDigitLower _ (by omega)
  have hn : ((0 * 16 + 0) * 16 + k / 16) * 16 + k % 16 = k := by omega
  have hcs : charOfScalar k = Char.ofNat k := by
    rw [charOfScalar, if_neg (show ¬ (0xd800 ≤ k ∧ k ≤ 0xdfff) from by omega)]
  simp only [parseStringBodyF, if_true, h0, hd1, hd2]
  rw [hn, if_neg (show ¬ (55296 ≤ k ∧ k ≤ 56319) from by omega), hcs]
  cases hp : parseStringBodyF F tail with
  | none => rfl
  | some p => rfl

theorem psbF_plain (F : Nat) (c : Char) (tail : Chars)
    (h1 : ¬ c = '"') (h2 : ¬ c = '\\') (h8 : ¬ c.toNat < 0x20) :
    parseStringBodyF (F + 1) (c :: tail) =
      match parseStringBodyF F tail with
      | some p => some (c :: p.1, p.2)
      | none => none := by
  simp only [parseStringBodyF]
  rw [if_neg h1, if_neg h2, if_neg h8]
  cases hp : parseStringBodyF F tail with
  | none => rfl
  | some p => rfl

theorem psbF_roundtrip (s : Chars) : ∀ (f : Nat) (rest : Chars),
    parseStringBodyF (s.length + f + 1) (escapeString s ++ '"' :: rest) =
      some (s, rest) := by
  induction s with
  | nil =>
    intro f rest
    simp [escapeString, parseStringBodyF]
  | cons c s ih =>
    intro f rest
    have hfuel : (c :: s).length + f + 1 = (s.length + f + 1) + 1 := by
      simp only [List.length_cons]
      omega
    have hsplit : escapeString (c :: s) ++ '"' :: rest =
        escapeChar c ++ (escapeString s ++ '"' :: rest) := by
      simp [escapeString]
    rw [hfuel, hsplit]
    by_cases h1 : c = '"'
    · subst h1
      have he : escapeChar '"' = ['\\', '"'] := rfl
      rw [he]
      rw [show (['\\', '"'] : Chars) ++ (escapeString s ++ '"' :: rest) =
        '\\' :: '"' :: (escapeString s ++ '"' :: rest) from rfl]
      rw [psbF_simple _ '"' '"' _ rfl (by decide), ih f rest]

    by_cases h2 : c = '\\'
    · subst h2
      have he : escapeChar '\\' = ['\\', '\\'] := rfl
      rw [he]
      rw [show (['\\', '\\'] : Chars) ++ (escapeString s ++ '"' :: rest) =
        '\\' :: '\\' :: (escapeString s ++ '"' :: rest) from rfl]
      rw [psbF_simple _ '\\' '\\' _ rfl (by decide), ih f rest]

    by_cases h3 : c = '\x08'
    · subst h3
      have he : escapeChar '\x08' = ['\\', 'b'] := rfl
      rw [he]
      rw [show (['\\', 'b'] : Chars) ++ (escapeString s ++ '"' :: rest) =
        '\\' :: 'b' :: (escapeString s ++ '"' :: rest) from rfl]
      rw [psbF_simple _ 'b' '\x08' _ rfl (by decide), ih f rest]

    by_cases h4 : c = '\x0c'
    · subst h4
      have he : escapeChar '\x0c' = ['\\', 'f'] := rfl
      rw [he]
      rw [show (['\\', 'f'] : Chars) ++ (escapeString s ++ '"' :: rest) =
        '\\' :: 'f' :: (escapeString s ++ '"' :: rest) from rfl]
      rw [psbF_simple _ 'f' '\x0c' _ rfl (by decide), ih f rest]

    by_cases h5 : c = '\n'
    · subst h5
      have he : escapeChar '\n' = ['\\', 'n'] := rfl
      rw [he]
      rw [show (['\\', 'n'] : Chars) ++ (escapeString s ++ '"' :: rest) =
        '\\' :: 'n' :: (escapeString s ++ '"' :: rest) from rfl]
      rw [psbF_simple _ 'n' '\n' _ rfl (by decide), ih f rest]

    by_cases h6 : c = '\r'
    · subst h6
      have he : escapeChar '\r' = ['\\', 'r'] := rfl
      rw [he]
      rw [show (['\\', 'r'] : Chars) ++ (escapeString s ++ '"' :: rest) =
        '\\' :: 'r' :: (escapeString s ++ '"' :: rest) from rfl]
      rw [psbF_simple _ 'r' '\r' _ rfl (by decide), ih f rest]

    by_cases h7 : c = '\t'
    · subst h7
      have he : escapeChar '\t' = ['\\', 't'] := rfl
      rw [he]
      rw [show (['\\', 't'] : Chars) ++ (escapeString s ++ '"' :: rest) =
        '\\' :: 't' :: (escapeString s ++ '"' :: rest) from rfl]
      rw [psbF_simple _ 't' '\t' _ rfl (by decide), ih f rest]

    by_cases h8 : c.toNat < 0x20
    · have he : escapeChar c =
          ['\\', 'u', '0', '0', hexDigitLower (c.toNat / 16),
           hexDigitLower (c.toNat % 16)] := by
        rw [escapeChar, if_neg h1, if_neg h2, if_neg h3, if_neg h4, if_neg h5,
          if_neg h6, if_neg h7, if_pos h8]
      rw [he]
      rw [show (['\\', 'u', '0', '0', hexDigitLower (c.toNat / 16),
          hexDigitLower (c.toNat % 16)] : Chars) ++ (escapeString s ++ '"' :: rest) =
        '\\' :: 'u' :: '0' :: '0' :: hexDigitLower (c.toNat / 16) ::
          hexDigitLower (c.toNat % 16) :: (escapeString s ++ '"' :: rest) from rfl]
      rw [psbF_hex _ _ h8 _, ih f rest, Char.ofNat_toNat]
    · have he : escapeChar c = [c] := by
        rw [escapeChar, if_neg h1, if_neg h2, if_neg h3, if_neg h4, if_neg h5,
          if_neg h6, if_neg h7, if_neg h8]
      rw [he]
      rw [show ([c] : Chars) ++ (escapeString s ++ '"' :: rest) =
        c :: (escapeString s ++ '"' :: rest) from rfl]
      rw [psbF_plain _ _ _ h1 h2 h8, ih f rest]

theorem one_le_escapeChar_length (c : Char) : 1 ≤ (escapeChar c).length := by
  rw [escapeChar]
  split_ifs <;> simp

theorem escapeString_length_ge (s : Chars) :
    s.length ≤ (escapeString s).length := by
  induction s with
  | nil => simp [escapeString]
  | cons c s ih =>
    have h1 := one_le_escapeChar_length c
    simp only [escapeString, List.flatMap_cons, List.length_append,
      List.length_cons] at ih ⊢
    omega

theorem psb_roundtrip (s rest : Chars) :
    parseStringBody (escapeString s ++ '"' :: rest) = some (s, rest) := by
  rw [parseStringBody]
  have hlen : (escapeString s ++ '"' :: rest).length + 1 =
      s.length + ((escapeString s).length - s.length + rest.length + 1) + 1 := by
    have h := escapeString_length_ge s
    simp only [List.length_append, List.length_cons]
    omega
  rw [hlen, psbF_roundtrip]

theorem parseCore_str (F : Nat) (v tail : Chars) :
    parseCore (F + 1) .value ('"' :: (escapeString v ++ ('"' :: tail))) =
      some (.str v, tail) := by
  have hsk : skipWs ('"' :: (escapeString v ++ ('"' :: tail))) =
      '"' :: (escapeString v ++ ('"' :: tail)) := rfl
  simp only [parseCore, hsk]
  rw [psb_roundtrip, if_neg (show ¬ ('"' : Char) = '\x7b' from by decide),
    if_neg (show ¬ ('"' : Char) = '[' from by decide), if_pos trivial]

theorem parseCore_member (F : Nat) (acc : List (Chars × Json)) (k v tail : Chars) :
    parseCore (F + 2) (.members acc)
      ('"' :: (escapeString k ++ ('"' :: ':' :: '"' :: (escapeString v ++ ('"' :: tail))))) =
      match skipWs tail with
      | ',' :: r4 => parseCore (F + 1) (.members (acc ++ [(k, Json.str v)])) r4
      | '\x7d' :: r4 => some (.obj (acc ++ [(k, Json.str v)]), r4)
      | _ => none := by
  have hsk : skipWs ('"' :: (escapeString k ++ ('"' :: ':' :: '"' :: (escapeString v ++ ('"' :: tail))))) =
      '"' :: (escapeString k ++ ('"' :: ':' :: '"' :: (escapeString v ++ ('"' :: tail)))) := rfl
  have hsk2 : skipWs (':' :: '"' :: (escapeString v ++ ('"' :: tail))) =
      ':' :: '"' :: (escapeString v ++ ('"' :: tail)) := rfl
  have hsk3 : skipWs ('"' :: (escapeString v ++ ('"' :: tail))) =
      '"' :: (escapeString v ++ ('"' :: tail)) := rfl
  simp only [parseCore, hsk]
  rw [psb_roundtrip]
  simp only [hsk2, hsk3]
  rw [psb_roundtrip,
    if_neg (show ¬ ('"' : Char) = '\x7b' from by decide),
    if_neg (show ¬ ('"' : Char) = '[' from by decide), if_pos trivial]

theorem parseCore_payload_two (F : Nat) (k1 v1 k2 v2 : Chars) :
    parseCore (F + 4) .value
      ('\x7b' :: '"' :: (escapeString k1 ++ ('"' :: ':' :: '"' :: (escapeString v1 ++
        ('"' :: ',' :: '"' :: (escapeString k2 ++ ('"' :: ':' :: '"' :: (escapeString v2 ++
          ('"' :: '\x7d' :: []))))))))) =
      some (.obj [(k1, .str v1), (k2, .str v2)], []) := by
  show parseCore (F + 3) (.members [])
      ('"' :: (escapeString k1 ++ ('"' :: ':' :: '"' :: (escapeString v1 ++
        ('"' :: ',' :: '"' :: (escapeString k2 ++ ('"' :: ':' :: '"' :: (escapeString v2 ++
          ('"' :: '\x7d' :: []))))))))) = _
  rw [parseCore_member (F + 1) [] k1 v1
    (',' :: '"' :: (escapeString k2 ++ ('"' :: ':' :: '"' :: (escapeString v2 ++
      ('"' :: '\x7d' :: [])))))]
  show parseCore (F + 2) (.members [(k1, Json.str v1)])
      ('"' :: (escapeString k2 ++ ('"' :: ':' :: '"' :: (escapeString v2 ++
        ('"' :: '\x7d' :: []))))) = _
  rw [parseCore_member F [(k1, Json.str v1)] k2 v2 ('\x7d' :: [])]
  rfl

theorem parseCore_payload_one (F : Nat) (k1 v1 : Chars) :
    parseCore (F + 3) .value
      ('\x7b' :: '"' :: (escapeString k1 ++ ('"' :: ':' :: '"' :: (escapeString v1 ++
        ('"' :: '\x7d' :: []))))) =
      some (.obj [(k1, .str v1)], []) := by
  show parseCore (F + 2) (.members [])
      ('"' :: (escapeString k1 ++ ('"' :: ':' :: '"' :: (escapeString v1 ++
        ('"' :: '\x7d' :: []))))) = _
  rw [parseCore_member F [] k1 v1 ('\x7d' :: [])]
  rfl

theorem parseJson_payload_two (k1 v1 k2 v2 : Chars) :
    parseJson
      ('\x7b' :: '"' :: (escapeString k1 ++ ('"' :: ':' :: '"' :: (escapeString v1 ++
        ('"' :: ',' :: '"' :: (escapeString k2 ++ ('"' :: ':' :: '"' :: (escapeString v2 ++
          ('"' :: '\x7d' :: []))))))))) =
      some (.obj [(k1, .str v1), (k2, .str v2)]) := by
  rw [parseJson]
  obtain ⟨G, hG⟩ : ∃ G,
      ('\x7b' :: '"' :: (escapeString k1 ++ ('"' :: ':' :: '"' :: (escapeString v1 ++
        ('"' :: ',' :: '"' :: (escapeString k2 ++ ('"' :: ':' :: '"' :: (escapeString v2 ++
          ('"' :: '\x7d' :: []))))))))).length + 1 = G + 4 := by
    refine ⟨('\x7b' :: '"' :: (escapeString k1 ++ ('"' :: ':' :: '"' :: (escapeString v1 ++
        ('"' :: ',' :: '"' :: (escapeString k2 ++ ('"' :: ':' :: '"' :: (escapeString v2 ++
          ('"' :: '\x7d' :: []))))))))).length - 3, ?_⟩
    simp only [List.length_cons, List.length_append]
    omega
  rw [hG, parseCore_payload_two]
  rfl

theorem parseJson_payload_one (k1 v1 : Chars) :
    parseJson
      ('\x7b' :: '"' :: (escapeString k1 ++ ('"' :: ':' :: '"' :: (escapeString v1 ++
        ('"' :: '\x7d' :: []))))) =
      some (.obj [(k1, .str v1)]) := by
  rw [parseJson]
  obtain ⟨G, hG⟩ : ∃ G,
      ('\x7b' :: '"' :: (escapeString k1 ++ ('"' :: ':' :: '"' :: (escapeString v1 ++
        ('"' :: '\x7d' :: []))))).length + 1 = G + 3 := by
    refine ⟨('\x7b' :: '"' :: (escapeString k1 ++ ('"' :: ':' :: '"' :: (escapeString v1 ++
        ('"' :: '\x7d' :: []))))).length - 2, ?_⟩
    simp only [List.length_cons, List.length_append]
    omega
  rw [hG, parseCore_payload_one]
  rfl

theorem stringify_payload_two (t c : Chars) :
    stringifyJson (payloadObj (some (.str t)) (some (.str c))) =
      '\x7b' :: '"' :: (escapeString "thinking".toList ++ ('"' :: ':' :: '"' ::
        (escapeString t ++ ('"' :: ',' :: '"' :: (escapeString "content".toList ++
          ('"' :: ':' :: '"' :: (escapeString c ++ ('"' :: '\x7d' :: [])))))))) := by
  simp [payloadObj, stringifyJson, stringifyFields, quoteString]

theorem stringify_payload_th (t : Chars) :
    stringifyJson (payloadObj (some (.str t)) none) =
      '\x7b' :: '"' :: (escapeString "thinking".toList ++ ('"' :: ':' :: '"' ::
        (escapeString t ++ ('"' :: '\x7d' :: [])))) := by
  simp [payloadObj, stringifyJson, stringifyFields, quoteString]

theorem stringify_payload_co (c : Chars) :
    stringifyJson (payloadObj none (some (.str c))) =
      '\x7b' :: '"' :: (escapeString "content".toList ++ ('"' :: ':' :: '"' ::
        (escapeString c ++ ('"' :: '\x7d' :: [])))) := by
  simp [payloadObj, stringifyJson, stringifyFields, quoteString]

theorem hexDigitLower_ne_nl : ∀ k, k < 16 → hexDigitLower k ≠ '\n' := by decide

theorem nl_not_mem_escapeChar (c : Char) : '\n' ∉ escapeChar c := by
  rw [escapeChar]
  split_ifs with h1 h2 h3 h4 h5 h6 h7 h8
  · decide
  · decide
  · decide
  · decide
  · decide
  · decide
  · decide
  · intro hm
    simp only [List.mem_cons, List.not_mem_nil, or_false] at hm
    rcases hm with hm | hm | hm | hm | hm | hm
    · exact absurd hm (by decide)
    · exact absurd hm (by decide)
    · exact absurd hm (by decide)
    · exact absurd hm (by decide)
    · exact hexDigitLower_ne_nl (c.toNat / 16) (by omega) hm.symm
    · exact hexDigitLower_ne_nl (c.toNat % 16) (by omega) hm.symm
  · intro hm
    simp only [List.mem_cons, List.not_mem_nil, or_false] at hm
    exact h5 hm.symm

theorem nl_not_mem_escapeString (s : Chars) : '\n' ∉ escapeString s := by
  rw [escapeString]
  intro h
  rw [List.mem_flatMap] at h
  obtain ⟨c, _, hc⟩ := h
  exact nl_not_mem_escapeChar c hc

theorem splitOnNl_data (S : Chars) (h : '\n' ∉ S) :
    splitOnNl ("data: ".toList ++ S ++ "\n\n".toList) =
      ["data: ".toList ++ S, [], []] := by
  have hd : '\n' ∉ "data: ".toList ++ S := by
    intro hm
    rw [List.mem_append] at hm
    rcases hm with hm | hm
    · exact absurd hm (by decide)
    · exact h hm
  have h1 : "data: ".toList ++ S ++ "\n\n".toList =
      ("data: ".toList ++ S) ++ '\n' :: ['\n'] := by simp
  rw [h1, splitOnNl_append_nl, splitOnNl_single hd]
  rfl

theorem trim_brace (mid : Chars) :
    trim (' ' :: '\x7b' :: (mid ++ ['\x7d'])) = '\x7b' :: (mid ++ ['\x7d']) := by
  rw [trim]
  have h1 : (' ' :: '\x7b' :: (mid ++ ['\x7d'])).dropWhile (fun c => isTrimWs c) =
      '\x7b' :: (mid ++ ['\x7d']) := rfl
  rw [h1]
  rw [show '\x7b' :: (mid ++ ['\x7d']) = ('\x7b' :: mid) ++ ['\x7d'] from by simp]
  rw [List.reverse_append]
  simp only [List.reverse_cons, List.reverse_nil, List.nil_append,
    List.singleton_append]
  rw [List.dropWhile_cons]
  rw [if_neg (show ¬ isTrimWs '\x7d' = true from by decide)]
  simp

theorem decodeChunk_data (S mid : Chars) (j : Json)
    (hS : S = '\x7b' :: (mid ++ ['\x7d']))
    (hnl : '\n' ∉ S)
    (hparse : parseJson S = some j) :
    decodeChunk ("data: ".toList ++ S ++ "\n\n".toList) =
      [ClientEvent.payload j] := by
  rw [decodeChunk, splitOnNl_data S hnl]
  have htrim2 : trim (' ' :: S) = S := by
    rw [hS]
    exact trim_brace mid
  have hndone : ¬ S = ['[', 'D', 'O', 'N', 'E', ']'] := by
    intro hh
    rw [hS] at hh
    simp at hh
  have hdl : decodeLine ('d' :: 'a' :: 't' :: 'a' :: ':' :: ' ' :: S) =
      some (ClientEvent.payload j) := by
    rw [decodeLine]
    have hpre2 : "data:".toList.isPrefixOf
        ('d' :: 'a' :: 't' :: 'a' :: ':' :: ' ' :: S) = true := rfl
    simp [hpre2, htrim2, hndone, hparse]
  have hnil : decodeLine ([] : Chars) = none := rfl
  rw [show ("data: ".toList ++ S) = 'd' :: 'a' :: 't' :: 'a' :: ':' :: ' ' :: S from rfl]
  simp [List.filterMap_cons, hdl, hnil]


theorem nl_not_mem_payload_two (t c : Chars) :
    '\n' ∉ stringifyJson (payloadObj (some (.str t)) (some (.str c))) := by
  rw [stringify_payload_two]
  simp [List.mem_cons, List.mem_append, nl_not_mem_escapeString]

theorem nl_not_mem_payload_th (t : Chars) :
    '\n' ∉ stringifyJson (payloadObj (some (.str t)) none) := by
  rw [stringify_payload_th]
  simp [List.mem_cons, List.mem_append, nl_not_mem_escapeString]

theorem nl_not_mem_payload_co (c : Chars) :
    '\n' ∉ stringifyJson (payloadObj none (some (.str c))) := by
  rw [stringify_payload_co]
  simp [List.mem_cons, List.mem_append, nl_not_mem_escapeString]

/-- C4.  Round trip of the wire encoding: for every pair of optional
strings with at least one present, the SSE line the server encoder emits
for it decodes on the client to exactly one payload event whose JSON
object carries the same fields — present fields keep their string values
and absent fields stay absent. -/
theorem C4_theorem (th co : Option Chars) (h : th.isSome ∨ co.isSome) :
    decodeChunk (sseEncode (th.map Json.str) (co.map Json.str)) =
      [ClientEvent.payload (payloadObj (th.map Json.str) (co.map Json.str))] ∧
    jsGet (payloadObj (th.map Json.str) (co.map Json.str)) "thinking".toList =
      th.map Json.str ∧
    jsGet (payloadObj (th.map Json.str) (co.map Json.str)) "content".toList =
      co.map Json.str := by
  cases th with
  | some t =>
    cases co with
    | some c =>
      refine ⟨?_, rfl, rfl⟩
      simp only [Option.map_some']
      rw [sseEncode]
      refine decodeChunk_data _
        ('"' :: (escapeString "thinking".toList ++ ('"' :: ':' :: '"' ::
          (escapeString t ++ ('"' :: ',' :: '"' :: (escapeString "content".toList ++
            ('"' :: ':' :: '"' :: (escapeString c ++ ['"']))))))))
        _ ?_ (nl_not_mem_payload_two t c) ?_
      · rw [stringify_payload_two]
        simp
      · rw [stringify_payload_two]
        exact parseJson_payload_two "thinking".toList t "content".toList c
    | none =>
      refine ⟨?_, rfl, rfl⟩
      simp only [Option.map_some', Option.map_none']
      rw [sseEncode]
      refine decodeChunk_data _
        ('"' :: (escapeString "thinking".toList ++ ('"' :: ':' :: '"' ::
          (escapeString t ++ ['"']))))
        _ ?_ (nl_not_mem_payload_th t) ?_
      · rw [stringify_payload_th]
        simp
      · rw [stringify_payload_th]
        exact parseJson_payload_one "thinking".toList t
  | none =>
    cases co with
    | some c =>
      refine ⟨?_, rfl, rfl⟩
      simp only [Option.map_some', Option.map_none']
      rw [sseEncode]
      refine decodeChunk_data _
        ('"' :: (escapeString "content".toList ++ ('"' :: ':' :: '"' ::
          (escapeString c ++ ['"']))))
        _ ?_ (nl_not_mem_payload_co c) ?_
      · rw [stringify_payload_co]
        simp
      · rw [stringify_payload_co]
        exact parseJson_payload_one "content".toList c
    | none =>
      simp at h


/-- C4, witness: a concrete present-thinking, absent-content pair. -/
theorem C4_witness :
    ((some "Hi".toList : Option Chars).isSome = true ∨
      (none : Option Chars).isSome = true) ∧
    (decodeChunk (sseEncode ((some "Hi".toList : Option Chars).map Json.str)
        ((none : Option Chars).map Json.str)) =
      [ClientEvent.payload (payloadObj
        ((some "Hi".toList : Option Chars).map Json.str)
        ((none : Option Chars).map Json.str))] ∧
     jsGet (payloadObj ((some "Hi".toList : Option Chars).map Json.str)
        ((none : Option Chars).map Json.str)) "thinking".toList =
      (some "Hi".toList : Option Chars).map Json.str ∧
     jsGet (payloadObj ((some "Hi".toList : Option Chars).map Json.str)
        ((none : Option Chars).map Json.str)) "content".toList =
      (none : Option Chars).map Json.str) :=
  ⟨Or.inl rfl, C4_theorem (some "Hi".toList) none (Or.inl rfl)⟩
